import Mathlib

/-!
Verification development for the `gamma_local` repository (single source file
`main.py`).  The program submits a document's text to the Gamma generation
service, polls the job until completion, records the outcome in a JSON
ledger (`generation_records.json`), and retrieves the generated artifact
through a chain of export strategies (direct API probing, then browser
automation).

The shallow embedding below translates the relevant functions of `main.py`
into Lean.  Python strings in the text-processing pipeline are modelled as
`List Char` (a Python `str` is a sequence of code points); short atoms such
as record fields, statuses and URLs are Lean `String`s; HTTP bodies are
byte lists (`List Nat`).  Effectful calls (HTTP requests, file writes,
browser use) are made explicit: functions return, besides their value, the
list of externally visible events they perform, and the environment
(responses of the remote service, file-system facts, extraction results)
is passed in as data.
-/

/-- Python truthiness of an optional string: `None` and `""` are falsy. -/
def pyTruthyS : Option String → Bool
  | none => false
  | some s => !(s = "")

/-- Python rendering of an optional string in an f-string: `None` prints as "None". -/
def pyStr (o : Option String) : String := o.getD "None"

/-- Python `str.strip()` (default whitespace stripping) on a code-point list. -/
def pyStrip (l : List Char) : List Char :=
  ((l.dropWhile Char.isWhitespace).reverse.dropWhile Char.isWhitespace).reverse

/-- Boolean test that `n` is a leading segment of `h` (Python `str.startswith`). -/
def startsWithSeq : List Char → List Char → Bool
  | [], _ => true
  | _ :: _, [] => false
  | a :: as, b :: bs => a == b && startsWithSeq as bs

/-- Boolean substring test, Python's `needle in hay` for strings. -/
def containsSeq (needle : List Char) : List Char → Bool
  | [] => needle.isEmpty
  | c :: rest => startsWithSeq needle (c :: rest) || containsSeq needle rest

/-- Python `str.lower()` on a code-point list (ASCII-adequate for the uses here). -/
def toLowerSeq (l : List Char) : List Char := l.map Char.toLower

/-!  ## Ledger (generation_records.json)

One ledger record, as written by `add_generation_record` / updated by
`update_generation_record`.  Records are read back from JSON with `.get`,
so every field is optional (`none` models an absent key, and Python's
`None == x` is `False` for any string `x`).  -/

structure Record where
  file_path : Option String
  file_name : Option String
  file_hash : Option String
  generation_id : Option String
  gamma_url : Option String
  status : Option String
  created_at : Option String
  updated_at : Option String
  pdf_downloaded : Option Bool
  pdf_path : Option String
deriving DecidableEq, Repr

/-- The ledger: the JSON object of `generation_records.json`, a mapping from
generation id to record, iterated in insertion order (Python dict). -/
abbrev Ledger := List (String × Record)

/-- First record of the ledger satisfying the disjunctive match of
`check_existing_generation`'s `for` loop (`main.py` lines 144-147). -/
def findMatch (path : String) (h : String) : Ledger → Bool × Option Record
  | [] => (false, none)
  | (_, r) :: rest =>
    if r.file_path = some path ∨ r.file_hash = some h then (true, some r)
    else findMatch path h rest

/-- Shallow embedding of `check_existing_generation` (`main.py` lines 129-149).
The hash of the input file (`get_file_hash`, which returns `None` on a read
failure) and the loaded ledger are passed in as data; `path` is the resolved
input path `str(Path(file_path).resolve())`. -/
def check_existing_generation (path : String) (hashResult : Option String)
    (records : Ledger) : Bool × Option Record :=
  match hashResult with
  | none => (false, none)
  | some h => findMatch path h records

/-- Python dict assignment `records[k] = r`: replaces in place if the key is
present (keeping its position), else appends. -/
def ledgerSet (l : Ledger) (k : String) (r : Record) : Ledger :=
  if l.any (fun p => p.1 = k) then
    l.map (fun p => if p.1 = k then (k, r) else p)
  else l ++ [(k, r)]

/-- Python dict lookup used in specifications: first binding of the key. -/
def ledgerGet (l : Ledger) (k : String) : Option Record :=
  (l.find? (fun p => p.1 = k)).map Prod.snd

/-- Shallow embedding of `add_generation_record` (`main.py` lines 152-181).
`now` stands for `datetime.now().isoformat()`, `saveOk` for the outcome of
`save_records`.  If hashing fails the function returns `False` without
touching the ledger. -/
def add_generation_record (resolvedPath fileName : String)
    (hashResult : Option String) (records : Ledger)
    (generationId gammaUrl status now : String) (saveOk : Bool) :
    Bool × Ledger :=
  match hashResult with
  | none => (false, records)
  | some h =>
    let r : Record :=
      { file_path := some resolvedPath
        file_name := some fileName
        file_hash := some h
        generation_id := some generationId
        gamma_url := some gammaUrl
        status := some status
        created_at := some now
        updated_at := some now
        pdf_downloaded := none
        pdf_path := none }
    (saveOk, ledgerSet records generationId r)

/-- The keyword arguments `update_generation_record` is invoked with by the
orchestrator after export (`main.py` lines 971-974): always
`pdf_downloaded`, and `pdf_path` only in the success call (`none` models the
keyword not being passed, so the stored value is left as is). -/
structure DlKwargs where
  pdf_downloaded : Bool
  pdf_path : Option String
deriving DecidableEq, Repr

/-- Effect of `records[generation_id].update(kwargs)` for the orchestrator's
download-outcome kwargs, followed by the `updated_at` refresh
(`main.py` lines 189-190). -/
def applyDlKwargs (r : Record) (kw : DlKwargs) (now : String) : Record :=
  { r with
    pdf_downloaded := some kw.pdf_downloaded
    pdf_path := match kw.pdf_path with
      | some p => some p
      | none => r.pdf_path
    updated_at := some now }

/-- Shallow embedding of `update_generation_record` (`main.py` lines 184-193)
as invoked with the orchestrator's download-outcome kwargs.  Returns the
value of `save_records` (modelled by `saveOk`) when the id is present, and
`False` (ledger untouched) otherwise. -/
def update_generation_record (records : Ledger) (generationId : String)
    (kw : DlKwargs) (now : String) (saveOk : Bool) : Bool × Ledger :=
  if records.any (fun p => p.1 = generationId) then
    (saveOk,
     records.map (fun p =>
       if p.1 = generationId then (p.1, applyDlKwargs p.2 kw now) else p))
  else (false, records)

/-!  ## Submission payload (generate_presentation) -/

/-- The JSON body POSTed to `/generations`, as built by
`generate_presentation` (`main.py` lines 257-316).  Optional keys are
`none` when the corresponding Python `if` kept them out of the dict. -/
structure GenPayload where
  inputText : List Char
  textMode : String
  format : String
  cardSplit : String
  exportAs : String
  themeId : Option String
  numCards : Option Nat
  additionalInstructions : Option String
  textAmount : String
  textTone : String
  textAudience : String
  textLanguage : String
  imageSource : String
  imageModel : Option String
  imageStyle : Option String
  cardDimensions : String
deriving DecidableEq, Repr

/-- Payload construction of `generate_presentation` (`main.py` lines
257-316): fixed required fields, truthiness-guarded optional fields, and
the image-sourcing branch `"noImages" if has_image_urls else "aiGenerated"`
with `model`/`style` added only in the `aiGenerated` case. -/
def buildGenPayload (inputText : List Char) (themeId : Option String)
    (numCards : Option Nat) (addInstr : Option String)
    (hasImageUrls : Bool) : GenPayload :=
  let imageSource := if hasImageUrls then "noImages" else "aiGenerated"
  { inputText := inputText
    textMode := "generate"
    format := "presentation"
    cardSplit := "auto"
    exportAs := "pdf"
    themeId := if pyTruthyS themeId then themeId else none
    numCards := match numCards with
      | some n => if n ≠ 0 then some n else none
      | none => none
    additionalInstructions := if pyTruthyS addInstr then addInstr else none
    textAmount := "detailed"
    textTone := "professional"
    textAudience := "general"
    textLanguage := "en"
    imageSource := imageSource
    imageModel := if imageSource = "aiGenerated" then some "imagen-4-pro" else none
    imageStyle := if imageSource = "aiGenerated" then some "photorealistic" else none
    cardDimensions := "fluid" }

/-- The image-URL section appended to the input text by `process_file`
(`main.py` lines 914-917): a fixed header followed by each of the first 20
URLs on its own line. -/
def imageSection (urls : List (List Char)) : List Char :=
  "\n\n---\n\n# 图片资源\n".data ++
    (List.flatten ((urls.take 20).map (fun u => u ++ "\n".data)))

/-- The input text actually submitted by `process_file` (`main.py` lines
910-923): the extracted text, with the image section appended when image
URLs were found, then truncated to its first 400000 characters when
longer. -/
def buildInputText (text : List Char) (urls : List (List Char)) : List Char :=
  let t := if urls.isEmpty then text else text ++ imageSection urls
  if t.length > 400000 then t.take 400000 else t

/-- The `additional_instructions` string built by `process_file`
(`main.py` lines 928-930). -/
def additionalInstructionsFor (urls : List (List Char)) : String :=
  if urls.isEmpty then
    "Make the presentation professional and engaging"
  else
    "Make the presentation professional and engaging" ++
      ". Please include and use the image URLs provided in the input text. Display images appropriately in the presentation slides."

/-- The submission payload produced for one file by the `process_file`
pipeline (`main.py` lines 910-937): text and discovered image URLs go
through `buildInputText`, the instruction string through
`additionalInstructionsFor`, and `has_image_urls = len(image_urls) > 0`. -/
def submissionPayload (text : List Char) (urls : List (List Char))
    (themeId : Option String) : GenPayload :=
  buildGenPayload (buildInputText text urls) themeId none
    (some (additionalInstructionsFor urls)) (decide (0 < urls.length))

/-!  ## Events and the generation client -/

/-- Externally visible effects of a run: a POST of the submission payload,
one GET per status poll, one GET per export candidate URL, a write of the
retrieved bytes to a local path, and use of the browser fallback. -/
inductive Event where
  | submit (payload : GenPayload)
  | statusCall (idx : Nat)
  | httpGet (url : String)
  | fileWrite (path : String)
  | browser
deriving DecidableEq, Repr

/-- Result of `generate_presentation`: the missing-API-key `ValueError`,
a run that ended without a generation id (non-2xx response or missing
`generationId` field, where the function returns `None`), or a fresh id. -/
inductive GenOut where
  | err
  | noId
  | newId (generationId : String)
deriving DecidableEq, Repr

/-- Shallow embedding of `generate_presentation` (`main.py` lines 238-335).
`submitResp` models the remote service: the HTTP status code of the POST
and the optional `generationId` field of the response JSON.  The payload is
built and sent only after the API-key truthiness check. -/
def generate_presentation (apiKey : Option String) (inputText : List Char)
    (themeId : Option String) (numCards : Option Nat)
    (addInstr : Option String) (hasImageUrls : Bool)
    (submitResp : GenPayload → Nat × Option String) :
    GenOut × List Event :=
  if pyTruthyS apiKey = false then (.err, [])
  else
    let payload := buildGenPayload inputText themeId numCards addInstr hasImageUrls
    let (code, gid) := submitResp payload
    if code ≠ 200 ∧ code ≠ 201 then (.noId, [Event.submit payload])
    else if pyTruthyS gid = false then (.noId, [Event.submit payload])
    else (.newId (gid.getD ""), [Event.submit payload])

/-!  ## Export strategy A: direct API probing -/

/-- An HTTP response to an export candidate GET: status code, the
`Content-Type` header, and the body bytes. -/
structure HttpResp where
  status : Nat
  contentType : List Char
  body : List Nat
deriving DecidableEq, Repr

/-- The first four bytes of a PDF file, `b'%PDF'`. -/
def pdfMagicBytes : List Nat := [0x25, 0x50, 0x44, 0x46]

/-- The first two bytes of a ZIP (hence PPTX) file, `b'PK'`. -/
def zipMagicBytes : List Nat := [0x50, 0x4B]

/-- The `is_valid` format check of `download_via_api` (`main.py` lines
451-462): a 200 payload counts as the requested format only if the content
type mentions it or the body starts with the format's magic bytes. -/
def respValid (fmt : String) (resp : HttpResp) : Bool :=
  if fmt = "pdf" then
    containsSeq "pdf".data (toLowerSeq resp.contentType) ||
      decide (resp.body.take 4 = pdfMagicBytes)
  else if fmt = "pptx" then
    containsSeq "presentation".data (toLowerSeq resp.contentType) ||
      containsSeq "pptx".data (toLowerSeq resp.contentType) ||
      decide (resp.body.take 2 = zipMagicBytes)
  else false

/-- The `re.search(r'/docs/([^/?]+)', gamma_url)` document-id extraction of
`download_via_api` (`main.py` lines 425-427): leftmost occurrence of
`/docs/` followed by at least one character other than `/` and `?`; the
capture is the maximal such run. -/
def extractDocId : List Char → Option (List Char)
  | [] => none
  | c :: rest =>
    let s := c :: rest
    if startsWithSeq "/docs/".data s then
      let cap := (s.drop 6).takeWhile (fun ch => !(ch == '/' || ch == '?'))
      if cap.isEmpty then extractDocId rest else some cap
    else extractDocId rest

/-- `GAMMA_API_BASE_URL` (`main.py` line 37). -/
def GAMMA_API_BASE_URL : String := "https://public-api.gamma.app/v1.0"

/-- The ordered candidate export URLs of `download_via_api` (`main.py`
lines 430-439); three document-id based and job-id based templates when a
document id was extracted, one otherwise. -/
def exportUrls (docId : Option (List Char)) (generationId : String)
    (fmt : String) : List String :=
  match docId with
  | some d =>
    [GAMMA_API_BASE_URL ++ "/docs/" ++ String.mk d ++ "/export/" ++ fmt,
     GAMMA_API_BASE_URL ++ "/generations/" ++ generationId ++ "/export/" ++ fmt,
     "https://gamma.app/api/export/" ++ fmt ++ "/" ++ String.mk d]
  | none =>
    [GAMMA_API_BASE_URL ++ "/generations/" ++ generationId ++ "/export/" ++ fmt]

/-- Prefixes an event to the event log of a strategy result. -/
def withEvent (e : Event) (r : Bool × Option String × List Event) :
    Bool × Option String × List Event :=
  (r.1, r.2.1, e :: r.2.2)

/-- The candidate loop of `download_via_api` (`main.py` lines 441-486).
`http` models `requests.get` (`none` is a raised exception, caught and
treated as this candidate's failure).  A 200 response with a matching
format writes the body to `outputPath` and returns success; a 200 with a
format mismatch, a 202, any other status, or an exception all fall through
to the next candidate. -/
def tryExportUrls (http : String → Option HttpResp) (fmt : String)
    (outputPath : String) : List String → Bool × Option String × List Event
  | [] => (false, none, [])
  | u :: rest =>
    match http u with
    | none => withEvent (Event.httpGet u) (tryExportUrls http fmt outputPath rest)
    | some resp =>
      if resp.status = 200 then
        if respValid fmt resp then
          (true, some "api", [Event.httpGet u, Event.fileWrite outputPath])
        else
          withEvent (Event.httpGet u) (tryExportUrls http fmt outputPath rest)
      else if resp.status = 202 then
        withEvent (Event.httpGet u) (tryExportUrls http fmt outputPath rest)
      else
        withEvent (Event.httpGet u) (tryExportUrls http fmt outputPath rest)

/-- Shallow embedding of `download_via_api` (`main.py` lines 404-486). -/
def download_via_api (http : String → Option HttpResp)
    (gammaUrl generationId outputPath fmt : String) :
    Bool × Option String × List Event :=
  tryExportUrls http fmt outputPath
    (exportUrls (extractDocId gammaUrl.data) generationId fmt)

/-- Shallow embedding of `download_pdf` (`main.py` lines 757-802): try the
API strategy first; on failure, when `use_browser or SELENIUM_AVAILABLE`
and Selenium is available, attempt the browser strategy (its outcome is
the environment datum `browserResult`); otherwise report failure. -/
def download_pdf (http : String → Option HttpResp)
    (seleniumAvailable browserResult : Bool)
    (gammaUrl generationId outputPath : String) (useBrowser : Bool) :
    Bool × List Event :=
  let r := download_via_api http gammaUrl generationId outputPath "pdf"
  if r.1 then (true, r.2.2)
  else if useBrowser || seleniumAvailable then
    if seleniumAvailable then
      (browserResult, r.2.2 ++ [Event.browser])
    else (false, r.2.2)
  else (false, r.2.2)

/-!  ## Polling loop (wait_for_completion)

The loop of `main.py` lines 366-401 is modelled with an explicit clock:
`elapsed` advances by `interval` at each `time.sleep(check_interval)`, a
status poll itself takes no time, and the `while` condition
`time.time() - start_time < max_wait_time` is re-checked before every
poll.  `poll k` is the result of the `k`-th call to
`check_generation_status`: `none` models a poll whose status query failed
(the function returns `(None, None)`), `some (s, p)` a reply with status
string `s` and response payload `p`. -/

structure WaitResult (P : Type) where
  success : Bool
  payload : Option P
  elapsed : Nat
  times : List Nat
deriving Repr

instance {P : Type} [DecidableEq P] : DecidableEq (WaitResult P) := by
  intro a b
  cases a
  cases b
  simp only [WaitResult.mk.injEq]
  infer_instance

/-- One step of the polling loop, with structural fuel.  `times` records the
clock value at each poll actually made.  The fuel-exhausted branch returns
exactly what the timed-out loop returns; `wait_for_completion` supplies
enough fuel that, for a positive interval, this branch is only reached with
`elapsed ≥ maxWait`. -/
def waitLoop {P : Type} (poll : Nat → Option (String × P))
    (maxWait interval : Nat) : Nat → Nat → Nat → WaitResult P
  | 0, elapsed, _ => ⟨false, none, elapsed, []⟩
  | fuel + 1, elapsed, idx =>
    if elapsed < maxWait then
      match poll idx with
      | none => ⟨false, none, elapsed, [elapsed]⟩
      | some (s, r) =>
        if s = "completed" then ⟨true, some r, elapsed, [elapsed]⟩
        else if s = "failed" then ⟨false, some r, elapsed, [elapsed]⟩
        else
          let R := waitLoop poll maxWait interval fuel (elapsed + interval) (idx + 1)
          ⟨R.success, R.payload, R.elapsed, elapsed :: R.times⟩
    else ⟨false, none, elapsed, []⟩

/-- Shallow embedding of `wait_for_completion` (`main.py` lines 366-401):
returns `(True, result)` on a `completed` poll, `(False, result)` on a
`failed` poll, `(False, None)` when a poll's status query fails, and
`(False, None)` when `maxWait` elapses; every other status (including
unknown ones) sleeps for `interval` and polls again. -/
def wait_for_completion {P : Type} (poll : Nat → Option (String × P))
    (maxWait interval : Nat) : WaitResult P :=
  waitLoop poll maxWait interval (maxWait + 1) 0 0

/-!  ## Orchestrator (process_file) -/

/-- The JSON payload returned by the status endpoint on completion, as read
by `process_file` line 949: `result.get("gammaUrl") or result.get("url")`. -/
structure WaitPayload where
  gammaUrl : Option String
  url : Option String
deriving DecidableEq, Repr

/-- Python `a or b` on two `.get` results. -/
def pyOr (a b : Option String) : Option String :=
  if pyTruthyS a then a else b

/-- The expected local output path for an input file stem
(`OUTPUT_DIR / (input_path.stem + "_gamma_presentation.pdf")`,
`main.py` lines 871-872 and 962-963). -/
def outputPathFor (stem : String) : String :=
  "output/" ++ stem ++ "_gamma_presentation.pdf"

/-- Environment of one `process_file` run: file-system facts, the results
of the out-of-scope extraction collaborators, the loaded ledger, and the
remote service's behaviour. -/
structure PEnv where
  /-- `input_path.exists()` -/
  inputExists : Bool
  /-- `input_path.suffix.lower()` -/
  suffix : String
  /-- `input_path.stem` -/
  stem : String
  /-- `input_path.name` -/
  fileName : String
  /-- `str(Path(file_path).resolve())` -/
  resolvedPath : String
  /-- result of `get_file_hash(input_path)` (`None` on read failure) -/
  hashResult : Option String
  /-- the ledger loaded by `load_records()` -/
  records : Ledger
  /-- `output_path.exists()` for the expected output file -/
  outputExists : Bool
  /-- result of `extract_text_from_docx` (text may be `None` on error) -/
  extractDocx : Option (List Char) × List (List Char)
  /-- result of `extract_text_from_pdf` -/
  extractPdfText : Option (List Char)
  /-- image URLs the `.pdf` branch's regex filter finds in the text -/
  extractPdfUrls : List (List Char)
  /-- `GAMMA_API_KEY` -/
  apiKey : Option String
  /-- `GAMMA_THEME_ID` -/
  themeId : Option String
  /-- remote reply to the submission POST -/
  submitResp : GenPayload → Nat × Option String
  /-- remote replies to successive status polls -/
  pollSeq : Nat → Option (String × WaitPayload)
  /-- remote replies to export candidate GETs -/
  http : String → Option HttpResp
  /-- `SELENIUM_AVAILABLE` -/
  seleniumAvailable : Bool
  /-- outcome of the browser strategy, were it driven -/
  browserResult : Bool
  /-- `os.getenv("USE_BROWSER_EXPORT") == "true"` -/
  useBrowserEnv : Bool
  /-- outcome of `save_records` -/
  saveOk : Bool
  /-- `datetime.now().isoformat()` -/
  now : String

/-- Result of a `process_file` run: `none` models an uncaught exception
(the missing-API-key `ValueError`), `some b` a normal return of `b`;
alongside it the event log and the final ledger. -/
abbrev PResult := Option Bool × List Event × Ledger

/-- The regeneration part of `process_file` (`main.py` lines 885-976):
extraction, the empty-text guard, payload construction, submission,
polling, ledger insertion, export, and the download-outcome update. -/
def process_file_generate (env : PEnv) : PResult :=
  if env.suffix ≠ ".docx" ∧ env.suffix ≠ ".pdf" then (some false, [], env.records)
  else
    let extract : Option (List Char) × List (List Char) :=
      if env.suffix = ".docx" then env.extractDocx
      else
        (env.extractPdfText,
         match env.extractPdfText with
         | some t => if t.isEmpty then [] else env.extractPdfUrls
         | none => [])
    match extract with
    | (none, _) => (some false, [], env.records)
    | (some text, urls) =>
      if text.isEmpty || (pyStrip text).isEmpty then (some false, [], env.records)
      else
        let inputText := buildInputText text urls
        let addInstr := additionalInstructionsFor urls
        match generate_presentation env.apiKey inputText env.themeId none
            (some addInstr) (decide (0 < urls.length)) env.submitResp with
        | (.err, ev) => (none, ev, env.records)
        | (.noId, ev) => (some false, ev, env.records)
        | (.newId gid, ev) =>
          let W := wait_for_completion env.pollSeq 300 5
          let ev := ev ++ (List.range W.times.length).map Event.statusCall
          if W.success = false then (some false, ev, env.records)
          else
            match W.payload with
            | none => (some false, ev, env.records)
            | some payload =>
              let gUrl := pyOr payload.gammaUrl payload.url
              if pyTruthyS gUrl = false then (some false, ev, env.records)
              else
                let gammaUrl := gUrl.getD ""
                let records1 :=
                  (add_generation_record env.resolvedPath env.fileName
                    env.hashResult env.records gid gammaUrl "completed"
                    env.now env.saveOk).2
                let outputPath := outputPathFor env.stem
                let dl := download_pdf env.http env.seleniumAvailable
                    env.browserResult gammaUrl gid outputPath env.useBrowserEnv
                let kw : DlKwargs :=
                  if dl.1 then ⟨true, some outputPath⟩ else ⟨false, none⟩
                let records2 :=
                  (update_generation_record records1 gid kw env.now env.saveOk).2
                (some dl.1, ev ++ dl.2, records2)

/-- Shallow embedding of `process_file` (`main.py` lines 839-976).  On a
non-forced run, an existing ledger record whose path or hash matches is
reused when its `gamma_url` is truthy: the run returns `True`, downloading
the PDF first only when the expected output file is absent.  A record
without a `gamma_url`, or no match, falls through to regeneration. -/
def process_file (env : PEnv) (forceRegenerate : Bool) : PResult :=
  if env.inputExists = false then (some false, [], env.records)
  else if forceRegenerate then process_file_generate env
  else
    match check_existing_generation env.resolvedPath env.hashResult env.records with
    | (true, some record) =>
      if pyTruthyS record.gamma_url then
        if env.outputExists then (some true, [], env.records)
        else
          let dl := download_pdf env.http env.seleniumAvailable
              env.browserResult (record.gamma_url.getD "")
              (pyStr record.generation_id) (outputPathFor env.stem) false
          (some true, dl.2, env.records)
      else process_file_generate env
    | _ => process_file_generate env

/-!  ## Concrete data used by witnesses and counterexamples -/

/-- A ledger record matching a query by content hash only. -/
def cRecHashOnly : Record :=
  { file_path := some "/data/other.docx"
    file_name := some "other.docx"
    file_hash := some "h1"
    generation_id := some "g1"
    gamma_url := some "https://gamma.app/docs/aaa111"
    status := some "completed"
    created_at := some "2026-01-01T10:00:00"
    updated_at := some "2026-01-01T10:00:00"
    pdf_downloaded := none
    pdf_path := none }

/-- A ledger record matching a query by resolved path only. -/
def cRecPathOnly : Record :=
  { file_path := some "/data/a.docx"
    file_name := some "a.docx"
    file_hash := some "h2"
    generation_id := some "g2"
    gamma_url := some "https://gamma.app/docs/bbb222"
    status := some "completed"
    created_at := some "2026-01-01T11:00:00"
    updated_at := some "2026-01-01T11:00:00"
    pdf_downloaded := none
    pdf_path := none }

/-- A ledger in which a hash-only match precedes a path match. -/
def cLedgerC3 : Ledger := [("g1", cRecHashOnly), ("g2", cRecPathOnly)]

/-- A one-record ledger whose record matches the query path. -/
def cLedgerC4 : Ledger := [("g2", cRecPathOnly)]

/-- A one-record ledger for exercising the download-outcome update. -/
def cLedgerC9 : Ledger := [("g1", cRecHashOnly)]

/-- Status sequence `[pending, processing, completed]` of the spec's poll
loop property (thereafter `completed`); payloads are poll numbers. -/
def cSeqPPC : Nat → Option (String × Nat) := fun k =>
  if k = 0 then some ("pending", 0)
  else if k = 1 then some ("processing", 1)
  else some ("completed", 2)

/-- Status sequence `[pending, completed, ...]`. -/
def cSeqPC : Nat → Option (String × Nat) := fun k =>
  if k = 0 then some ("pending", 0) else some ("completed", 1)

/-- A status sequence that never leaves `processing`. -/
def cSeqProc : Nat → Option (String × Nat) := fun _ => some ("processing", 0)

/-- An HTTP 200 reply carrying an HTML page instead of the requested PDF
(content type `text/html`, body starting with `<html`). -/
def cHtmlResp : HttpResp := ⟨200, "text/html".data, [0x3C, 0x68, 0x74, 0x6D, 0x6C]⟩

/-- A remote that answers every export candidate with the HTML page. -/
def cHttpHtml : String → Option HttpResp := fun _ => some cHtmlResp

/-- An HTTP 202 accepted-but-not-ready reply. -/
def c202Resp : HttpResp := ⟨202, [], []⟩

/-- A remote that answers every export candidate with 202. -/
def cHttp202 : String → Option HttpResp := fun _ => some c202Resp

/-- An image URL as discovered in an input document. -/
def cImgUrl : List Char := "https://img.example.com/p.png".data

/-- A 400000-character extracted text (the truncation threshold). -/
def bigTextA : List Char := List.replicate 400000 'a'

/-- A short extracted text. -/
def cSmallText : List Char := "Quarterly report".data

/-- Environment of a second, non-forced `process_file` run over a file whose
resolved path already has a completed ledger record with a Gamma URL, and
whose expected output PDF is already present locally. -/
def cEnvC1 : PEnv :=
  { inputExists := true
    suffix := ".docx"
    stem := "a"
    fileName := "a.docx"
    resolvedPath := "/data/a.docx"
    hashResult := some "h2"
    records := cLedgerC4
    outputExists := true
    extractDocx := (some "hello".data, [])
    extractPdfText := none
    extractPdfUrls := []
    apiKey := some "k"
    themeId := none
    submitResp := fun _ => (200, some "gX")
    pollSeq := fun _ => some ("completed", ⟨some "https://gamma.app/docs/ccc333", none⟩)
    http := fun _ => none
    seleniumAvailable := false
    browserResult := false
    useBrowserEnv := false
    saveOk := true
    now := "2026-01-02T00:00:00" }

/-!  ## Theorems -/

theorem startsWithSeq_iff (n h : List Char) :
    startsWithSeq n h = true ↔ ∃ b, h = n ++ b := by
  induction n generalizing h with
  | nil => simp [startsWithSeq]
  | cons a as ih =>
    cases h with
    | nil =>
      simp [startsWithSeq]
    | cons b bs =>
      simp only [startsWithSeq, Bool.and_eq_true, beq_iff_eq, ih]
      constructor
      · rintro ⟨rfl, t, rfl⟩
        exact ⟨t, rfl⟩
      · rintro ⟨t, ht⟩
        cases ht
        exact ⟨rfl, t, rfl⟩

theorem containsSeq_iff (n h : List Char) :
    containsSeq n h = true ↔ ∃ a b, h = a ++ n ++ b := by
  induction h with
  | nil =>
    simp only [containsSeq, List.isEmpty_iff]
    constructor
    · rintro rfl
      exact ⟨[], [], rfl⟩
    · rintro ⟨a, b, hab⟩
      rcases List.append_eq_nil.mp (List.append_eq_nil.mp hab.symm).1 with ⟨-, h2⟩
      exact h2
  | cons c rest ih =>
    simp only [containsSeq, Bool.or_eq_true, startsWithSeq_iff, ih]
    constructor
    · rintro (⟨b, hb⟩ | ⟨a, b, hab⟩)
      · exact ⟨[], b, by simpa using hb⟩
      · exact ⟨c :: a, b, by simp [hab]⟩
    · rintro ⟨a, b, hab⟩
      cases a with
      | nil =>
        exact Or.inl ⟨b, by simpa using hab⟩
      | cons a0 as =>
        rw [List.cons_append, List.cons_append, List.cons.injEq] at hab
        exact Or.inr ⟨as, b, hab.2⟩

/-- If `n` occurs as a substring of `h`, every character of `n` occurs in `h`. -/
theorem mem_of_containsSeq {n h : List Char} (hc : containsSeq n h = true)
    {c : Char} (hm : c ∈ n) : c ∈ h := by
  rcases (containsSeq_iff n h).mp hc with ⟨a, b, rfl⟩
  simp [hm]

theorem ledgerGet_any (records : Ledger) (gid : String) (r : Record)
    (h : ledgerGet records gid = some r) :
    records.any (fun p => p.1 = gid) = true := by
  induction records with
  | nil => simp [ledgerGet] at h
  | cons p rest ih =>
    by_cases hp : p.1 = gid
    · simp [hp]
    · rw [ledgerGet, List.find?_cons_of_neg] at h
      · simp [List.any_cons, hp, ih h]
      · simpa using hp

theorem ledgerGet_map_update (records : Ledger) (gid : String)
    (kw : DlKwargs) (now : String) :
    ledgerGet (records.map
        (fun p => if p.1 = gid then (p.1, applyDlKwargs p.2 kw now) else p)) gid
      = (ledgerGet records gid).map (fun r => applyDlKwargs r kw now) := by
  induction records with
  | nil => rfl
  | cons p rest ih =>
    by_cases hp : p.1 = gid
    · rw [List.map_cons, if_pos hp, ledgerGet, ledgerGet, List.find?_cons_of_pos,
        List.find?_cons_of_pos] <;> first | rfl | simpa using hp
    · rw [List.map_cons, if_neg hp, ledgerGet, ledgerGet, List.find?_cons_of_neg,
        List.find?_cons_of_neg] <;> first | exact ih | simpa using hp

theorem ledgerGet_map_update_ne (records : Ledger) (gid k2 : String)
    (kw : DlKwargs) (now : String) (hne : k2 ≠ gid) :
    ledgerGet (records.map
        (fun p => if p.1 = gid then (p.1, applyDlKwargs p.2 kw now) else p)) k2
      = ledgerGet records k2 := by
  induction records with
  | nil => rfl
  | cons p rest ih =>
    by_cases hp : p.1 = gid
    · have hpk : ¬ p.1 = k2 := fun hk => hne (hk ▸ hp)
      rw [List.map_cons, if_pos hp, ledgerGet, ledgerGet, List.find?_cons_of_neg,
        List.find?_cons_of_neg] <;> first | exact ih | simpa using hpk
    · by_cases hk : p.1 = k2
      · rw [List.map_cons, if_neg hp, ledgerGet, ledgerGet, List.find?_cons_of_pos,
          List.find?_cons_of_pos] <;> first | rfl | simpa using hk
      · rw [List.map_cons, if_neg hp, ledgerGet, ledgerGet, List.find?_cons_of_neg,
          List.find?_cons_of_neg] <;> first | exact ih | simpa using hk

/-- C9: updating an existing ledger record with the orchestrator's
download-outcome kwargs yields a record that keeps `created_at` and every
identity field (`gamma_url`, `file_path`, `file_hash`, `file_name`,
`generation_id`, `status`) unchanged, refreshes `updated_at`, and changes
only the download-outcome fields; all other ledger entries are untouched. -/
theorem update_generation_record_frame
    (records : Ledger) (gid : String) (kw : DlKwargs) (now : String)
    (saveOk : Bool) (r : Record) (h : ledgerGet records gid = some r) :
    ledgerGet (update_generation_record records gid kw now saveOk).2 gid
        = some (applyDlKwargs r kw now)
      ∧ (applyDlKwargs r kw now).created_at = r.created_at
      ∧ (applyDlKwargs r kw now).updated_at = some now
      ∧ (applyDlKwargs r kw now).gamma_url = r.gamma_url
      ∧ (applyDlKwargs r kw now).file_path = r.file_path
      ∧ (applyDlKwargs r kw now).file_hash = r.file_hash
      ∧ (applyDlKwargs r kw now).file_name = r.file_name
      ∧ (applyDlKwargs r kw now).generation_id = r.generation_id
      ∧ (applyDlKwargs r kw now).status = r.status
      ∧ (applyDlKwargs r kw now).pdf_downloaded = some kw.pdf_downloaded
      ∧ (∀ k2, k2 ≠ gid →
          ledgerGet (update_generation_record records gid kw now saveOk).2 k2
            = ledgerGet records k2) := by
  have hany : records.any (fun p => p.1 = gid) = true :=
    ledgerGet_any records gid r h
  have h2 : (update_generation_record records gid kw now saveOk).2
      = records.map (fun p => if p.1 = gid then (p.1, applyDlKwargs p.2 kw now) else p) := by
    unfold update_generation_record
    rw [if_pos hany]
  refine ⟨?_, rfl, rfl, rfl, rfl, rfl, rfl, rfl, rfl, rfl, ?_⟩
  · rw [h2, ledgerGet_map_update, h]
    rfl
  · intro k2 hk
    rw [h2, ledgerGet_map_update_ne _ _ _ _ _ hk]

/-- Witness for C9 at a concrete ledger, id and kwargs. -/
theorem update_generation_record_frame_witness :
    ledgerGet (update_generation_record cLedgerC9 "g1"
        ⟨true, some "output/a_gamma_presentation.pdf"⟩
        "2026-01-03T00:00:00" true).2 "g1"
      = some (applyDlKwargs cRecHashOnly
          ⟨true, some "output/a_gamma_presentation.pdf"⟩ "2026-01-03T00:00:00")
    ∧ (applyDlKwargs cRecHashOnly
          ⟨true, some "output/a_gamma_presentation.pdf"⟩
          "2026-01-03T00:00:00").created_at = cRecHashOnly.created_at :=
  ⟨(update_generation_record_frame cLedgerC9 "g1"
      ⟨true, some "output/a_gamma_presentation.pdf"⟩
      "2026-01-03T00:00:00" true cRecHashOnly (by decide)).1,
   (update_generation_record_frame cLedgerC9 "g1"
      ⟨true, some "output/a_gamma_presentation.pdf"⟩
      "2026-01-03T00:00:00" true cRecHashOnly (by decide)).2.1⟩

/-- C3 counterexample: with a hash-only match stored before a path match,
`check_existing_generation` returns the hash-only record, not the first
path-matching record the claim prescribes. -/
theorem check_existing_generation_path_priority_counterexample :
    check_existing_generation "/data/a.docx" (some "h1") cLedgerC3
        = (true, some cRecHashOnly)
      ∧ cRecHashOnly.file_path ≠ some "/data/a.docx"
      ∧ cRecPathOnly.file_path = some "/data/a.docx"
      ∧ ("g2", cRecPathOnly) ∈ cLedgerC3
      ∧ check_existing_generation "/data/a.docx" (some "h1") cLedgerC3
          ≠ (true, some cRecPathOnly) := by
  decide

/-- C3 as amended: the dedup lookup is a single linear scan with a
disjunctive test; it returns the first record (in ledger iteration order)
whose resolved path or content hash matches, with no priority of path
matches over hash matches. -/
theorem check_existing_generation_single_scan (path h : String)
    (records : Ledger) :
    check_existing_generation path (some h) records =
      match records.find?
          (fun p => decide (p.2.file_path = some path ∨ p.2.file_hash = some h)) with
      | some p => (true, some p.2)
      | none => (false, none) := by
  unfold check_existing_generation
  induction records with
  | nil => rfl
  | cons p rest ih =>
    obtain ⟨k, r⟩ := p
    by_cases hm : r.file_path = some path ∨ r.file_hash = some h
    · rw [List.find?_cons_of_pos _ (by simpa using hm)]
      simp [findMatch, hm]
    · rw [List.find?_cons_of_neg _ (by simpa using hm)]
      simp only [findMatch, if_neg hm]
      exact ih

/-- C4 counterexample: when hashing fails (`get_file_hash` returns `None`),
`check_existing_generation` returns `(False, None)` even though a record
matching the resolved path is in the ledger — no path-only lookup happens. -/
theorem check_existing_generation_hashfail_counterexample :
    check_existing_generation "/data/a.docx" none cLedgerC4 = (false, none)
      ∧ cRecPathOnly.file_path = some "/data/a.docx"
      ∧ ("g2", cRecPathOnly) ∈ cLedgerC4 := by
  decide

/-- C4 as amended: a hash failure makes `check_existing_generation` return
`(False, None)` immediately, skipping the ledger scan entirely — dedup,
including the path-based match, is disabled for that file, and the caller
proceeds to regenerate. -/
theorem check_existing_generation_hashfail_skips_dedup
    (path : String) (records : Ledger) :
    check_existing_generation path none records = (false, none) := rfl

theorem waitLoop_timeout {P : Type} (poll : Nat → Option (String × P))
    (maxWait interval fuel elapsed idx : Nat) (h : ¬ elapsed < maxWait) :
    waitLoop poll maxWait interval fuel elapsed idx
      = ⟨false, none, elapsed, []⟩ := by
  cases fuel <;> simp [waitLoop, h]

theorem waitLoop_poll_error {P : Type} (poll : Nat → Option (String × P))
    (maxWait interval fuel elapsed idx : Nat) (hlt : elapsed < maxWait)
    (hp : poll idx = none) :
    waitLoop poll maxWait interval (fuel + 1) elapsed idx
      = ⟨false, none, elapsed, [elapsed]⟩ := by
  simp [waitLoop, hlt, hp]

theorem waitLoop_poll_completed {P : Type} (poll : Nat → Option (String × P))
    (maxWait interval fuel elapsed idx : Nat) (r : P) (hlt : elapsed < maxWait)
    (hp : poll idx = some ("completed", r)) :
    waitLoop poll maxWait interval (fuel + 1) elapsed idx
      = ⟨true, some r, elapsed, [elapsed]⟩ := by
  simp [waitLoop, hlt, hp]

theorem waitLoop_poll_failed {P : Type} (poll : Nat → Option (String × P))
    (maxWait interval fuel elapsed idx : Nat) (r : P) (hlt : elapsed < maxWait)
    (hp : poll idx = some ("failed", r)) :
    waitLoop poll maxWait interval (fuel + 1) elapsed idx
      = ⟨false, some r, elapsed, [elapsed]⟩ := by
  simp [waitLoop, hlt, hp]

theorem waitLoop_poll_wait {P : Type} (poll : Nat → Option (String × P))
    (maxWait interval fuel elapsed idx : Nat) (s : String) (r : P)
    (hlt : elapsed < maxWait) (hp : poll idx = some (s, r))
    (h1 : s ≠ "completed") (h2 : s ≠ "failed") :
    waitLoop poll maxWait interval (fuel + 1) elapsed idx
      = ⟨(waitLoop poll maxWait interval fuel (elapsed + interval) (idx + 1)).success,
         (waitLoop poll maxWait interval fuel (elapsed + interval) (idx + 1)).payload,
         (waitLoop poll maxWait interval fuel (elapsed + interval) (idx + 1)).elapsed,
         elapsed :: (waitLoop poll maxWait interval fuel (elapsed + interval) (idx + 1)).times⟩ := by
  simp [waitLoop, hlt, hp, h1, h2]

theorem waitLoop_completes {P : Type} (poll : Nat → Option (String × P))
    (maxWait interval : Nat) (hi : 1 ≤ interval) :
    ∀ (k fuel elapsed idx : Nat) (r : P), maxWait < fuel + elapsed →
      (∀ j, j < k → ∃ s p, poll (idx + j) = some (s, p)
        ∧ s ≠ "completed" ∧ s ≠ "failed") →
      poll (idx + k) = some ("completed", r) →
      elapsed + k * interval < maxWait →
      (waitLoop poll maxWait interval fuel elapsed idx).success = true
        ∧ (waitLoop poll maxWait interval fuel elapsed idx).payload = some r := by
  intro k
  induction k with
  | zero =>
    intro fuel elapsed idx r hinv _ hp hk
    have hlt : elapsed < maxWait := by omega
    obtain ⟨f, rfl⟩ : ∃ f, fuel = f + 1 := ⟨fuel - 1, by omega⟩
    rw [waitLoop_poll_completed poll maxWait interval f elapsed idx r hlt
      (by simpa using hp)]
    exact ⟨rfl, rfl⟩
  | succ k ih =>
    intro fuel elapsed idx r hinv hnt hp hk
    rw [Nat.succ_mul] at hk
    have hlt : elapsed < maxWait := by omega
    obtain ⟨f, rfl⟩ : ∃ f, fuel = f + 1 := ⟨fuel - 1, by omega⟩
    obtain ⟨s, p, hsp, h1, h2⟩ := hnt 0 (Nat.succ_pos k)
    rw [Nat.add_zero] at hsp
    rw [waitLoop_poll_wait poll maxWait interval f elapsed idx s p hlt hsp h1 h2]
    have hres := ih f (elapsed + interval) (idx + 1) r (by omega)
      (fun j hj => by
        have := hnt (j + 1) (by omega)
        rwa [show idx + (j + 1) = idx + 1 + j by omega] at this)
      (by rwa [show idx + 1 + k = idx + (k + 1) by omega])
      (by omega)
    simpa using hres

theorem waitLoop_fails {P : Type} (poll : Nat → Option (String × P))
    (maxWait interval : Nat) (hi : 1 ≤ interval) :
    ∀ (k fuel elapsed idx : Nat) (r : P), maxWait < fuel + elapsed →
      (∀ j, j < k → ∃ s p, poll (idx + j) = some (s, p)
        ∧ s ≠ "completed" ∧ s ≠ "failed") →
      poll (idx + k) = some ("failed", r) →
      elapsed + k * interval < maxWait →
      (waitLoop poll maxWait interval fuel elapsed idx).success = false
        ∧ (waitLoop poll maxWait interval fuel elapsed idx).payload = some r := by
  intro k
  induction k with
  | zero =>
    intro fuel elapsed idx r hinv _ hp hk
    have hlt : elapsed < maxWait := by omega
    obtain ⟨f, rfl⟩ : ∃ f, fuel = f + 1 := ⟨fuel - 1, by omega⟩
    rw [waitLoop_poll_failed poll maxWait interval f elapsed idx r hlt
      (by simpa using hp)]
    exact ⟨rfl, rfl⟩
  | succ k ih =>
    intro fuel elapsed idx r hinv hnt hp hk
    rw [Nat.succ_mul] at hk
    have hlt : elapsed < maxWait := by omega
    obtain ⟨f, rfl⟩ : ∃ f, fuel = f + 1 := ⟨fuel - 1, by omega⟩
    obtain ⟨s, p, hsp, h1, h2⟩ := hnt 0 (Nat.succ_pos k)
    rw [Nat.add_zero] at hsp
    rw [waitLoop_poll_wait poll maxWait interval f elapsed idx s p hlt hsp h1 h2]
    have hres := ih f (elapsed + interval) (idx + 1) r (by omega)
      (fun j hj => by
        have := hnt (j + 1) (by omega)
        rwa [show idx + (j + 1) = idx + 1 + j by omega] at this)
      (by rwa [show idx + 1 + k = idx + (k + 1) by omega])
      (by omega)
    simpa using hres

theorem waitLoop_poll_errors {P : Type} (poll : Nat → Option (String × P))
    (maxWait interval : Nat) (hi : 1 ≤ interval) :
    ∀ (k fuel elapsed idx : Nat), maxWait < fuel + elapsed →
      (∀ j, j < k → ∃ s p, poll (idx + j) = some (s, p)
        ∧ s ≠ "completed" ∧ s ≠ "failed") →
      poll (idx + k) = none →
      elapsed + k * interval < maxWait →
      (waitLoop poll maxWait interval fuel elapsed idx).success = false
        ∧ (waitLoop poll maxWait interval fuel elapsed idx).payload = none := by
  intro k
  induction k with
  | zero =>
    intro fuel elapsed idx hinv _ hp hk
    have hlt : elapsed < maxWait := by omega
    obtain ⟨f, rfl⟩ : ∃ f, fuel = f + 1 := ⟨fuel - 1, by omega⟩
    rw [waitLoop_poll_error poll maxWait interval f elapsed idx hlt
      (by simpa using hp)]
    exact ⟨rfl, rfl⟩
  | succ k ih =>
    intro fuel elapsed idx hinv hnt hp hk
    rw [Nat.succ_mul] at hk
    have hlt : elapsed < maxWait := by omega
    obtain ⟨f, rfl⟩ : ∃ f, fuel = f + 1 := ⟨fuel - 1, by omega⟩
    obtain ⟨s, p, hsp, h1, h2⟩ := hnt 0 (Nat.succ_pos k)
    rw [Nat.add_zero] at hsp
    rw [waitLoop_poll_wait poll maxWait interval f elapsed idx s p hlt hsp h1 h2]
    have hres := ih f (elapsed + interval) (idx + 1) (by omega)
      (fun j hj => by
        have := hnt (j + 1) (by omega)
        rwa [show idx + (j + 1) = idx + 1 + j by omega] at this)
      (by rwa [show idx + 1 + k = idx + (k + 1) by omega])
      (by omega)
    simpa using hres

theorem waitLoop_times_out {P : Type} (poll : Nat → Option (String × P))
    (maxWait interval : Nat) (hi : 1 ≤ interval) :
    ∀ (fuel elapsed idx : Nat), maxWait < fuel + elapsed →
      (∀ j, elapsed + j * interval < maxWait →
        ∃ s p, poll (idx + j) = some (s, p) ∧ s ≠ "completed" ∧ s ≠ "failed") →
      (waitLoop poll maxWait interval fuel elapsed idx).success = false
        ∧ (waitLoop poll maxWait interval fuel elapsed idx).payload = none := by
  intro fuel
  induction fuel with
  | zero =>
    intro elapsed idx hinv _
    have h : ¬ elapsed < maxWait := by omega
    rw [waitLoop_timeout poll maxWait interval 0 elapsed idx h]
    exact ⟨rfl, rfl⟩
  | succ f ih =>
    intro elapsed idx hinv hnt
    by_cases hlt : elapsed < maxWait
    · obtain ⟨s, p, hsp, h1, h2⟩ := hnt 0 (by simpa using hlt)
      rw [Nat.add_zero] at hsp
      rw [waitLoop_poll_wait poll maxWait interval f elapsed idx s p hlt hsp h1 h2]
      have hres := ih (elapsed + interval) (idx + 1) (by omega)
        (fun j hj => by
          have := hnt (j + 1) (by rw [Nat.succ_mul]; omega)
          rwa [show idx + (j + 1) = idx + 1 + j by omega] at this)
      simpa using hres
    · rw [waitLoop_timeout poll maxWait interval (f + 1) elapsed idx hlt]
      exact ⟨rfl, rfl⟩

theorem waitLoop_elapsed_lt {P : Type} (poll : Nat → Option (String × P))
    (maxWait interval : Nat) (hi : 1 ≤ interval) :
    ∀ (fuel elapsed idx : Nat), elapsed < maxWait + interval →
      (waitLoop poll maxWait interval fuel elapsed idx).elapsed
        < maxWait + interval := by
  intro fuel
  induction fuel with
  | zero =>
    intro elapsed idx hb
    simpa [waitLoop] using hb
  | succ f ih =>
    intro elapsed idx hb
    by_cases hlt : elapsed < maxWait
    · cases hps : poll idx with
      | none =>
        rw [waitLoop_poll_error poll maxWait interval f elapsed idx hlt hps]
        simpa using hb
      | some sr =>
        obtain ⟨s, r⟩ := sr
        by_cases h1 : s = "completed"
        · subst h1
          rw [waitLoop_poll_completed poll maxWait interval f elapsed idx r hlt hps]
          simpa using hb
        · by_cases h2 : s = "failed"
          · subst h2
            rw [waitLoop_poll_failed poll maxWait interval f elapsed idx r hlt hps]
            simpa using hb
          · rw [waitLoop_poll_wait poll maxWait interval f elapsed idx s r hlt hps h1 h2]
            have := ih (elapsed + interval) (idx + 1) (by omega)
            simpa using this
    · rw [waitLoop_timeout poll maxWait interval (f + 1) elapsed idx hlt]
      simpa using hb

theorem waitLoop_times_eq {P : Type} (poll : Nat → Option (String × P))
    (maxWait interval : Nat) :
    ∀ (fuel elapsed idx : Nat),
      (waitLoop poll maxWait interval fuel elapsed idx).times
        = (List.range (waitLoop poll maxWait interval fuel elapsed idx).times.length).map
            (fun j => elapsed + j * interval) := by
  intro fuel
  induction fuel with
  | zero =>
    intro elapsed idx
    simp [waitLoop]
  | succ f ih =>
    intro elapsed idx
    by_cases hlt : elapsed < maxWait
    · cases hps : poll idx with
      | none =>
        rw [waitLoop_poll_error poll maxWait interval f elapsed idx hlt hps]
        simp [List.range_succ]
      | some sr =>
        obtain ⟨s, r⟩ := sr
        by_cases h1 : s = "completed"
        · subst h1
          rw [waitLoop_poll_completed poll maxWait interval f elapsed idx r hlt hps]
          simp [List.range_succ]
        · by_cases h2 : s = "failed"
          · subst h2
            rw [waitLoop_poll_failed poll maxWait interval f elapsed idx r hlt hps]
            simp [List.range_succ]
          · rw [waitLoop_poll_wait poll maxWait interval f elapsed idx s r hlt hps h1 h2]
            have hstep := ih (elapsed + interval) (idx + 1)
            rw [hstep]
            simp only [List.length_cons, List.length_map, List.length_range,
              List.range_succ_eq_map, List.map_cons, List.map_map]
            congr 1
            · omega
            · apply List.map_congr_left
              intro j hj
              simp only [Function.comp_apply, Nat.succ_eq_add_one, Nat.succ_mul]
              omega
    · rw [waitLoop_timeout poll maxWait interval (f + 1) elapsed idx hlt]
      simp

theorem waitLoop_times_head {P : Type} (poll : Nat → Option (String × P))
    (maxWait interval fuel elapsed idx : Nat) (t : Nat)
    (h : (waitLoop poll maxWait interval fuel elapsed idx).times[0]? = some t) :
    t = elapsed := by
  cases fuel with
  | zero => simp [waitLoop] at h
  | succ f =>
    by_cases hlt : elapsed < maxWait
    · cases hps : poll idx with
      | none =>
        rw [waitLoop_poll_error poll maxWait interval f elapsed idx hlt hps] at h
        simpa using h.symm
      | some sr =>
        obtain ⟨s, r⟩ := sr
        by_cases h1 : s = "completed"
        · subst h1
          rw [waitLoop_poll_completed poll maxWait interval f elapsed idx r hlt hps] at h
          simpa using h.symm
        · by_cases h2 : s = "failed"
          · subst h2
            rw [waitLoop_poll_failed poll maxWait interval f elapsed idx r hlt hps] at h
            simpa using h.symm
          · rw [waitLoop_poll_wait poll maxWait interval f elapsed idx s r hlt hps h1 h2] at h
            simpa using h.symm
    · rw [waitLoop_timeout poll maxWait interval (f + 1) elapsed idx hlt] at h
      simp [waitLoop] at h

theorem waitLoop_times_gap {P : Type} (poll : Nat → Option (String × P))
    (maxWait interval : Nat) :
    ∀ (fuel elapsed idx i t t2 : Nat),
      (waitLoop poll maxWait interval fuel elapsed idx).times[i]? = some t →
      (waitLoop poll maxWait interval fuel elapsed idx).times[i + 1]? = some t2 →
      t2 = t + interval := by
  intro fuel
  induction fuel with
  | zero =>
    intro elapsed idx i t t2 h1 _
    simp [waitLoop] at h1
  | succ f ih =>
    intro elapsed idx i t t2 h1 h2
    by_cases hlt : elapsed < maxWait
    · cases hps : poll idx with
      | none =>
        rw [waitLoop_poll_error poll maxWait interval f elapsed idx hlt hps] at h1 h2
        rw [List.getElem?_cons_succ] at h2
        simp at h2
      | some sr =>
        obtain ⟨s, r⟩ := sr
        by_cases hc : s = "completed"
        · subst hc
          rw [waitLoop_poll_completed poll maxWait interval f elapsed idx r hlt hps] at h1 h2
          rw [List.getElem?_cons_succ] at h2
          simp at h2
        · by_cases hf : s = "failed"
          · subst hf
            rw [waitLoop_poll_failed poll maxWait interval f elapsed idx r hlt hps] at h1 h2
            rw [List.getElem?_cons_succ] at h2
            simp at h2
          · rw [waitLoop_poll_wait poll maxWait interval f elapsed idx s r hlt hps hc hf] at h1 h2
            cases i with
            | zero =>
              have ht : t = elapsed := by simpa using h1.symm
              rw [List.getElem?_cons_succ] at h2
              have := waitLoop_times_head poll maxWait interval f (elapsed + interval)
                (idx + 1) t2 h2
              omega
            | succ i =>
              rw [List.getElem?_cons_succ] at h1 h2
              exact ih (elapsed + interval) (idx + 1) i t t2 h1 h2
    · rw [waitLoop_timeout poll maxWait interval (f + 1) elapsed idx hlt] at h1
      simp at h1

/-- C5: for every run of `wait_for_completion` (positive interval): a poll
that observes `completed` after only non-terminal polls within the window
yields `(True, payload)`; one that observes `failed` yields
`(False, payload)`; a failing status query yields `(False, None)`; if every
poll inside the window is non-terminal the loop times out with
`(False, None)`; and consecutive polls are always exactly one `interval`
apart, so the loop never polls faster than the given interval. -/
theorem wait_for_completion_contract {P : Type}
    (poll : Nat → Option (String × P)) (maxWait interval : Nat)
    (hi : 1 ≤ interval) :
    (∀ k r, (∀ j, j < k → ∃ s p, poll j = some (s, p)
          ∧ s ≠ "completed" ∧ s ≠ "failed") →
        poll k = some ("completed", r) → k * interval < maxWait →
        (wait_for_completion poll maxWait interval).success = true
          ∧ (wait_for_completion poll maxWait interval).payload = some r)
    ∧ (∀ k r, (∀ j, j < k → ∃ s p, poll j = some (s, p)
          ∧ s ≠ "completed" ∧ s ≠ "failed") →
        poll k = some ("failed", r) → k * interval < maxWait →
        (wait_for_completion poll maxWait interval).success = false
          ∧ (wait_for_completion poll maxWait interval).payload = some r)
    ∧ (∀ k, (∀ j, j < k → ∃ s p, poll j = some (s, p)
          ∧ s ≠ "completed" ∧ s ≠ "failed") →
        poll k = none → k * interval < maxWait →
        (wait_for_completion poll maxWait interval).success = false
          ∧ (wait_for_completion poll maxWait interval).payload = none)
    ∧ ((∀ k, k * interval < maxWait → ∃ s p, poll k = some (s, p)
          ∧ s ≠ "completed" ∧ s ≠ "failed") →
        (wait_for_completion poll maxWait interval).success = false
          ∧ (wait_for_completion poll maxWait interval).payload = none)
    ∧ (∀ i t t2, (wait_for_completion poll maxWait interval).times[i]? = some t →
        (wait_for_completion poll maxWait interval).times[i + 1]? = some t2 →
        t2 = t + interval) := by
  refine ⟨?_, ?_, ?_, ?_, ?_⟩
  · intro k r hnt hp hk
    exact waitLoop_completes poll maxWait interval hi k (maxWait + 1) 0 0 r
      (by omega) (fun j hj => by simpa using hnt j hj) (by simpa using hp)
      (by simpa using hk)
  · intro k r hnt hp hk
    exact waitLoop_fails poll maxWait interval hi k (maxWait + 1) 0 0 r
      (by omega) (fun j hj => by simpa using hnt j hj) (by simpa using hp)
      (by simpa using hk)
  · intro k hnt hp hk
    exact waitLoop_poll_errors poll maxWait interval hi k (maxWait + 1) 0 0
      (by omega) (fun j hj => by simpa using hnt j hj) (by simpa using hp)
      (by simpa using hk)
  · intro hall
    exact waitLoop_times_out poll maxWait interval hi (maxWait + 1) 0 0
      (by omega) (fun j hj => by simpa using hall j (by simpa using hj))
  · intro i t t2 h1 h2
    exact waitLoop_times_gap poll maxWait interval (maxWait + 1) 0 0 i t t2 h1 h2

/-- Witness for C5: against the sequence `[pending, completed]` with
`maxWait = 10`, `interval = 5`, the loop reports success with the payload of
the completed poll. -/
theorem wait_for_completion_contract_witness :
    (wait_for_completion cSeqPC 10 5).success = true
      ∧ (wait_for_completion cSeqPC 10 5).payload = some 1 :=
  (wait_for_completion_contract cSeqPC 10 5 (by decide)).1 1 1
    (fun j hj => by
      have hj0 : j = 0 := by omega
      subst hj0
      exact ⟨"pending", 0, rfl, by decide, by decide⟩)
    rfl (by decide)

/-- C2 counterexample: with `maxWait = 10` and `interval = 5` the loop
re-checks `elapsed < maxWait` before each poll, so against the status
sequence `[pending, processing, completed]` only the polls at 0 and 5 happen
and the run times out with `(False, None)` — it does not return
`(True, payload)` as the claim states. -/
theorem wait_for_completion_ppc_counterexample :
    (wait_for_completion cSeqPPC 10 5).success = false
      ∧ (wait_for_completion cSeqPPC 10 5).payload = none
      ∧ (wait_for_completion cSeqPPC 10 5).times = [0, 5]
      ∧ cSeqPPC 2 = some ("completed", 2) := by decide

/-- C2 as amended: with `maxWait = 10`, `interval = 5`, at most two polls
(at 0 and 5) can happen, so the sequence `[pending, processing, completed]`
times out with `(False, None)` after exactly 2 polls at 10 time units;
a sequence reaching `completed` by the second poll returns
`(True, payload)` after at most 3 polls and before 15 time units; and
against a sequence that never leaves `processing` the loop returns
`(False, None)` with total elapsed time never exceeding
`maxWait + interval` (here it stops exactly at `maxWait`). -/
theorem wait_for_completion_window_amended :
    (wait_for_completion cSeqPPC 10 5).success = false
      ∧ (wait_for_completion cSeqPPC 10 5).payload = none
      ∧ (wait_for_completion cSeqPPC 10 5).times.length = 2
      ∧ (wait_for_completion cSeqPPC 10 5).elapsed = 10
      ∧ (wait_for_completion cSeqPC 10 5).success = true
      ∧ (wait_for_completion cSeqPC 10 5).payload = some 1
      ∧ (wait_for_completion cSeqPC 10 5).times.length ≤ 3
      ∧ (wait_for_completion cSeqPC 10 5).elapsed < 15
      ∧ (∀ poll : Nat → Option (String × Nat),
          (∀ k, ∃ p, poll k = some ("processing", p)) →
          (wait_for_completion poll 10 5).success = false
            ∧ (wait_for_completion poll 10 5).payload = none
            ∧ (wait_for_completion poll 10 5).elapsed ≤ 10 + 5) := by
  refine ⟨by decide, by decide, by decide, by decide, by decide, by decide,
    by decide, by decide, ?_⟩
  intro poll hproc
  have h1 := waitLoop_times_out poll 10 5 (by omega) 11 0 0 (by omega)
    (fun j _ => by
      obtain ⟨p, hp⟩ := hproc j
      exact ⟨"processing", p, by simpa using hp, by decide, by decide⟩)
  have h2 := waitLoop_elapsed_lt poll 10 5 (by omega) 11 0 0 (by omega)
  exact ⟨h1.1, h1.2, Nat.le_of_lt h2⟩

/-- Witness for C2's amended claim at the constant `processing` sequence. -/
theorem wait_for_completion_window_amended_witness :
    (wait_for_completion cSeqProc 10 5).success = false
      ∧ (wait_for_completion cSeqProc 10 5).payload = none
      ∧ (wait_for_completion cSeqProc 10 5).elapsed ≤ 10 + 5 :=
  wait_for_completion_window_amended.2.2.2.2.2.2.2.2 cSeqProc
    (fun _ => ⟨0, rfl⟩)

theorem tryExportUrls_invalid_cons (http : String → Option HttpResp)
    (fmt outP u : String) (rest : List String) (resp : HttpResp)
    (h : http u = some resp) (h200 : resp.status = 200)
    (hv : respValid fmt resp = false) :
    tryExportUrls http fmt outP (u :: rest)
      = withEvent (Event.httpGet u) (tryExportUrls http fmt outP rest) := by
  simp [tryExportUrls, h, h200, hv]

theorem tryExportUrls_202_cons (http : String → Option HttpResp)
    (fmt outP u : String) (rest : List String) (resp : HttpResp)
    (h : http u = some resp) (h202 : resp.status = 202) :
    tryExportUrls http fmt outP (u :: rest)
      = withEvent (Event.httpGet u) (tryExportUrls http fmt outP rest) := by
  simp [tryExportUrls, h, h202]

theorem tryExportUrls_write_only_valid (http : String → Option HttpResp)
    (fmt outP : String) :
    ∀ (urls : List String) (p : String),
      Event.fileWrite p ∈ (tryExportUrls http fmt outP urls).2.2 →
      ∃ u resp, u ∈ urls ∧ http u = some resp ∧ resp.status = 200
        ∧ respValid fmt resp = true ∧ p = outP := by
  intro urls
  induction urls with
  | nil =>
    intro p hp
    simp [tryExportUrls] at hp
  | cons u rest ih =>
    intro p hp
    cases hh : http u with
    | none =>
      rw [tryExportUrls] at hp
      rw [hh] at hp
      rcases List.mem_cons.mp hp with heq | htail
      · cases heq
      · obtain ⟨u2, resp2, hm, h1, h2, h3, h4⟩ := ih p htail
        exact ⟨u2, resp2, List.mem_cons_of_mem u hm, h1, h2, h3, h4⟩
    | some resp =>
      by_cases h200 : resp.status = 200
      · by_cases hv : respValid fmt resp = true
        · rw [tryExportUrls] at hp
          rw [hh] at hp
          simp only [h200, if_pos rfl, hv, if_true] at hp
          rcases List.mem_cons.mp hp with heq | htail
          · cases heq
          · rcases List.mem_cons.mp htail with heq2 | hnil
            · cases heq2
              exact ⟨u, resp, List.mem_cons_self u rest, hh, h200, hv, rfl⟩
            · cases hnil
        · rw [tryExportUrls_invalid_cons http fmt outP u rest resp hh h200
            (Bool.not_eq_true _ ▸ hv)] at hp
          rcases List.mem_cons.mp hp with heq | htail
          · cases heq
          · obtain ⟨u2, resp2, hm, h1, h2, h3, h4⟩ := ih p htail
            exact ⟨u2, resp2, List.mem_cons_of_mem u hm, h1, h2, h3, h4⟩
      · have hstep : tryExportUrls http fmt outP (u :: rest)
            = withEvent (Event.httpGet u) (tryExportUrls http fmt outP rest) := by
          simp [tryExportUrls, hh, h200]
        rw [hstep] at hp
        rcases List.mem_cons.mp hp with heq | htail
        · cases heq
        · obtain ⟨u2, resp2, hm, h1, h2, h3, h4⟩ := ih p htail
          exact ⟨u2, resp2, List.mem_cons_of_mem u hm, h1, h2, h3, h4⟩

theorem tryExportUrls_log_structure (http : String → Option HttpResp)
    (fmt outP : String) :
    ∀ (urls : List String),
      ∃ k, k ≤ urls.length ∧
        (tryExportUrls http fmt outP urls).2.2
          = ((urls.take k).map Event.httpGet)
            ++ (if (tryExportUrls http fmt outP urls).1
                then [Event.fileWrite outP] else []) := by
  intro urls
  induction urls with
  | nil => exact ⟨0, Nat.le_refl 0, by simp [tryExportUrls]⟩
  | cons u rest ih =>
    obtain ⟨k, hk, hlog⟩ := ih
    cases hh : http u with
    | none =>
      have hstep : tryExportUrls http fmt outP (u :: rest)
          = withEvent (Event.httpGet u) (tryExportUrls http fmt outP rest) := by
        simp [tryExportUrls, hh]
      refine ⟨k + 1, by simpa using Nat.succ_le_succ hk, ?_⟩
      rw [hstep]
      simp only [withEvent, List.take_succ_cons, List.map_cons, List.cons_append]
      rw [hlog]
    | some resp =>
      by_cases h200 : resp.status = 200
      · by_cases hv : respValid fmt resp = true
        · have hstep : tryExportUrls http fmt outP (u :: rest)
              = (true, some "api", [Event.httpGet u, Event.fileWrite outP]) := by
            simp [tryExportUrls, hh, h200, hv]
          refine ⟨1, by simp, ?_⟩
          rw [hstep]
          simp
        · have hstep := tryExportUrls_invalid_cons http fmt outP u rest resp hh h200
            (Bool.not_eq_true _ ▸ hv)
          refine ⟨k + 1, by simpa using Nat.succ_le_succ hk, ?_⟩
          rw [hstep]
          simp only [withEvent, List.take_succ_cons, List.map_cons, List.cons_append]
          rw [hlog]
      · have hstep : tryExportUrls http fmt outP (u :: rest)
            = withEvent (Event.httpGet u) (tryExportUrls http fmt outP rest) := by
          simp [tryExportUrls, hh, h200]
        refine ⟨k + 1, by simpa using Nat.succ_le_succ hk, ?_⟩
        rw [hstep]
        simp only [withEvent, List.take_succ_cons, List.map_cons, List.cons_append]
        rw [hlog]

/-- C7: in `download_via_api`, a write to the output path can only come from
a candidate whose response had HTTP 200 and passed the format check
(content type mentions the format, or the body starts with the format's
magic bytes); and an HTTP 200 response with `Content-Type: text/html` and
no PDF signature for a PDF request is a format mismatch: that candidate
contributes only its GET to the log — nothing is written — and the loop
proceeds with the next candidate URL. -/
theorem download_via_api_format_guard :
    (∀ (http : String → Option HttpResp) (fmt outP : String)
        (urls : List String) (p : String),
      Event.fileWrite p ∈ (tryExportUrls http fmt outP urls).2.2 →
      ∃ u resp, u ∈ urls ∧ http u = some resp ∧ resp.status = 200
        ∧ respValid fmt resp = true ∧ p = outP)
    ∧ (∀ (http : String → Option HttpResp) (outP u : String)
        (rest : List String) (resp : HttpResp),
      http u = some resp → resp.status = 200 →
      resp.contentType = "text/html".data →
      resp.body.take 4 ≠ pdfMagicBytes →
      tryExportUrls http "pdf" outP (u :: rest)
        = withEvent (Event.httpGet u) (tryExportUrls http "pdf" outP rest)) := by
  constructor
  · intro http fmt outP urls p hp
    exact tryExportUrls_write_only_valid http fmt outP urls p hp
  · intro http outP u rest resp hh h200 hct h4
    have hcs : containsSeq "pdf".data (toLowerSeq "text/html".data) = false := by
      decide
    have hv : respValid "pdf" resp = false := by
      simp [respValid, hct, hcs, decide_eq_false h4]
    exact tryExportUrls_invalid_cons http "pdf" outP u rest resp hh h200 hv

/-- Witness for C7: a candidate answered with the HTML page is skipped and
the loop moves to the remaining candidate. -/
theorem download_via_api_format_guard_witness :
    tryExportUrls cHttpHtml "pdf" "output/a_gamma_presentation.pdf"
        ["https://public-api.gamma.app/v1.0/docs/d1/export/pdf",
         "https://public-api.gamma.app/v1.0/generations/g1/export/pdf"]
      = withEvent (Event.httpGet "https://public-api.gamma.app/v1.0/docs/d1/export/pdf")
          (tryExportUrls cHttpHtml "pdf" "output/a_gamma_presentation.pdf"
            ["https://public-api.gamma.app/v1.0/generations/g1/export/pdf"]) :=
  download_via_api_format_guard.2 cHttpHtml "output/a_gamma_presentation.pdf"
    "https://public-api.gamma.app/v1.0/docs/d1/export/pdf"
    ["https://public-api.gamma.app/v1.0/generations/g1/export/pdf"]
    cHtmlResp rfl rfl rfl (by decide)

/-- C8: an HTTP 202 reply to an export candidate is never a success: that
candidate contributes exactly one GET to the log (it is not retried),
nothing is written for it, and the loop moves to the next candidate; and
the whole strategy's log is the GETs of a prefix of the fixed candidate
list, in priority order, followed by a single write exactly when the
strategy succeeded. -/
theorem download_via_api_202_not_success :
    (∀ (http : String → Option HttpResp) (fmt outP u : String)
        (rest : List String) (resp : HttpResp),
      http u = some resp → resp.status = 202 →
      tryExportUrls http fmt outP (u :: rest)
        = withEvent (Event.httpGet u) (tryExportUrls http fmt outP rest))
    ∧ (∀ (http : String → Option HttpResp) (gammaUrl gid outP fmt : String),
      ∃ k, k ≤ (exportUrls (extractDocId gammaUrl.data) gid fmt).length ∧
        (download_via_api http gammaUrl gid outP fmt).2.2
          = (((exportUrls (extractDocId gammaUrl.data) gid fmt).take k).map
              Event.httpGet)
            ++ (if (download_via_api http gammaUrl gid outP fmt).1
                then [Event.fileWrite outP] else [])) := by
  constructor
  · intro http fmt outP u rest resp hh h202
    exact tryExportUrls_202_cons http fmt outP u rest resp hh h202
  · intro http gammaUrl gid outP fmt
    exact tryExportUrls_log_structure http fmt outP
      (exportUrls (extractDocId gammaUrl.data) gid fmt)

/-- Witness for C8: a 202 on the first candidate moves the loop to the
second candidate without success. -/
theorem download_via_api_202_not_success_witness :
    tryExportUrls cHttp202 "pdf" "output/a_gamma_presentation.pdf"
        ["https://public-api.gamma.app/v1.0/docs/d1/export/pdf",
         "https://public-api.gamma.app/v1.0/generations/g1/export/pdf"]
      = withEvent (Event.httpGet "https://public-api.gamma.app/v1.0/docs/d1/export/pdf")
          (tryExportUrls cHttp202 "pdf" "output/a_gamma_presentation.pdf"
            ["https://public-api.gamma.app/v1.0/generations/g1/export/pdf"]) :=
  download_via_api_202_not_success.1 cHttp202 "pdf"
    "output/a_gamma_presentation.pdf"
    "https://public-api.gamma.app/v1.0/docs/d1/export/pdf"
    ["https://public-api.gamma.app/v1.0/generations/g1/export/pdf"]
    c202Resp rfl rfl

theorem tryExportUrls_no_submit (http : String → Option HttpResp)
    (fmt outP : String) (urls : List String) (p : GenPayload) :
    Event.submit p ∉ (tryExportUrls http fmt outP urls).2.2 := by
  intro hmem
  obtain ⟨k, _, hlog⟩ := tryExportUrls_log_structure http fmt outP urls
  rw [hlog] at hmem
  rcases List.mem_append.mp hmem with hm | hm
  · rcases List.mem_map.mp hm with ⟨u, -, heq⟩
    cases heq
  · by_cases hs : (tryExportUrls http fmt outP urls).1 <;> simp [hs] at hm

theorem download_pdf_no_submit (http : String → Option HttpResp)
    (sel br : Bool) (g gid outP : String) (ub : Bool) (p : GenPayload) :
    Event.submit p ∉ (download_pdf http sel br g gid outP ub).2 := by
  intro hmem
  rw [download_pdf] at hmem
  have hno := tryExportUrls_no_submit http "pdf" outP
    (exportUrls (extractDocId g.data) gid "pdf") p
  split_ifs at hmem with h1 h2 h3
  · exact hno hmem
  · rcases List.mem_append.mp hmem with hm | hm
    · exact hno hm
    · simp at hm
  · exact hno hmem
  · exact hno hmem

theorem exists_split_of_mem_flatten (nl u : List Char) :
    ∀ (l : List (List Char)), u ∈ l →
      ∃ a b, (l.map (fun x => x ++ nl)).flatten = a ++ u ++ b := by
  intro l
  induction l with
  | nil =>
    intro h
    cases h
  | cons v vs ih =>
    intro h
    rcases List.mem_cons.mp h with rfl | hv
    · exact ⟨[], nl ++ (vs.map (fun x => x ++ nl)).flatten, by simp⟩
    · obtain ⟨a, b, hab⟩ := ih hv
      exact ⟨(v ++ nl) ++ a, b, by simp [hab]⟩

/-- C1: a non-forced `process_file` run that finds an existing ledger record
with a truthy `gamma_url` never submits a generation request: it returns
`True`, leaves the ledger unchanged, and when the expected output file is
already present it performs no external calls at all. -/
theorem process_file_idempotent (env : PEnv) (hin : env.inputExists = true)
    (r : Record)
    (hc : check_existing_generation env.resolvedPath env.hashResult env.records
      = (true, some r))
    (hg : pyTruthyS r.gamma_url = true) :
    (process_file env false).1 = some true
      ∧ (∀ p, Event.submit p ∉ (process_file env false).2.1)
      ∧ (process_file env false).2.2 = env.records
      ∧ (env.outputExists = true →
          process_file env false = (some true, [], env.records)) := by
  have hpf : process_file env false =
      if env.outputExists then (some true, [], env.records)
      else (some true,
        (download_pdf env.http env.seleniumAvailable env.browserResult
          (r.gamma_url.getD "") (pyStr r.generation_id)
          (outputPathFor env.stem) false).2,
        env.records) := by
    simp [process_file, hin, hc, hg]
  cases ho : env.outputExists with
  | true =>
    rw [hpf, if_pos (by rw [ho])]
    exact ⟨rfl, fun p => by simp, rfl, fun _ => rfl⟩
  | false =>
    rw [hpf, if_neg (by rw [ho]; exact Bool.false_ne_true)]
    refine ⟨rfl, ?_, rfl, ?_⟩
    · intro p
      exact download_pdf_no_submit env.http env.seleniumAvailable
        env.browserResult (r.gamma_url.getD "") (pyStr r.generation_id)
        (outputPathFor env.stem) false p
    · intro habs
      cases habs

/-- Witness for C1 at a concrete environment whose ledger already holds a
completed record for the file's resolved path and whose output PDF exists. -/
theorem process_file_idempotent_witness :
    process_file cEnvC1 false = (some true, [], cEnvC1.records) :=
  (process_file_idempotent cEnvC1 rfl cRecPathOnly (by decide) (by decide)).2.2.2 rfl

/-- C6 counterexample: for a 400000-character extracted text with one
recognized image URL, the submission's image-sourcing mode is `noImages`,
yet the URL does not appear in the outbound `inputText` — the appended
image section is cut off by the 400000-character truncation, so the claim
"the URLs appear verbatim in the outbound payload" fails. -/
theorem submission_image_urls_truncated_counterexample :
    (submissionPayload bigTextA [cImgUrl] none).imageSource = "noImages"
      ∧ containsSeq cImgUrl (submissionPayload bigTextA [cImgUrl] none).inputText
          = false := by
  have hlenSec : 0 < (imageSection [cImgUrl]).length := by decide
  have hlenBig : bigTextA.length = 400000 := List.length_replicate 400000 'a'
  have hinput : buildInputText bigTextA [cImgUrl] = bigTextA := by
    unfold buildInputText
    rw [if_neg (show ¬ (([cImgUrl] : List (List Char)).isEmpty = true) by simp),
      if_pos (show (bigTextA ++ imageSection [cImgUrl]).length > 400000 by
        rw [List.length_append, hlenBig]
        omega)]
    rw [List.take_append_eq_append_take]
    rw [List.take_of_length_le (show bigTextA.length ≤ 400000 by omega)]
    rw [hlenBig, Nat.sub_self, List.take_zero, List.append_nil]
  constructor
  · rfl
  · have hproj : (submissionPayload bigTextA [cImgUrl] none).inputText
        = buildInputText bigTextA [cImgUrl] := by
      simp only [submissionPayload, buildGenPayload]
    rw [hproj, hinput]
    cases hcs : containsSeq cImgUrl bigTextA with
    | false => rfl
    | true =>
      exfalso
      have hh : ('h' : Char) ∈ bigTextA := mem_of_containsSeq hcs (by decide)
      have hh2 : ('h' : Char) ∈ List.replicate 400000 'a' := hh
      exact absurd (List.eq_of_mem_replicate hh2) (by decide)

/-- C6 as amended: a submission built by `process_file` with no recognized
image URLs uses image-sourcing mode `aiGenerated`; with image URLs present
it uses `noImages`, and — provided the text with the appended image section
does not exceed the 400000-character truncation limit — each of the first
20 URLs appears verbatim in the outbound `inputText` (URLs beyond the
first 20 are dropped; longer inputs are truncated and may lose the URL
section). -/
theorem submission_image_mode_amended (text : List Char)
    (urls : List (List Char)) (themeId : Option String) :
    (urls = [] →
      (submissionPayload text urls themeId).imageSource = "aiGenerated")
    ∧ (urls ≠ [] →
      (submissionPayload text urls themeId).imageSource = "noImages"
        ∧ ((text ++ imageSection urls).length ≤ 400000 →
            ∀ u ∈ urls.take 20,
              containsSeq u (submissionPayload text urls themeId).inputText
                = true)) := by
  constructor
  · rintro rfl
    rfl
  · intro hne
    constructor
    · cases urls with
      | nil => exact absurd rfl hne
      | cons v vs =>
        have hd : decide (0 < (v :: vs : List (List Char)).length) = true := by
          simp
        simp [submissionPayload, buildGenPayload, hd]
    · intro hlen u hu
      have hnotrunc : buildInputText text urls = text ++ imageSection urls := by
        unfold buildInputText
        rw [if_neg (show ¬ (urls.isEmpty = true) by
            simpa [List.isEmpty_iff] using hne),
          if_neg (show ¬ ((text ++ imageSection urls).length > 400000) by omega)]
      have hproj : (submissionPayload text urls themeId).inputText
          = buildInputText text urls := by
        simp only [submissionPayload, buildGenPayload]
      rw [hproj, hnotrunc]
      obtain ⟨a, b, hab⟩ :=
        exists_split_of_mem_flatten "\n".data u (urls.take 20) hu
      apply (containsSeq_iff u (text ++ imageSection urls)).mpr
      refine ⟨text ++ "\n\n---\n\n# 图片资源\n".data ++ a, b, ?_⟩
      rw [imageSection, hab]
      simp [List.append_assoc]

/-- Witness for C6's amended claim: a short text with one image URL keeps
mode `noImages` and carries the URL verbatim in the outbound text. -/
theorem submission_image_mode_amended_witness :
    (submissionPayload cSmallText [cImgUrl] none).imageSource = "noImages"
      ∧ containsSeq cImgUrl (submissionPayload cSmallText [cImgUrl] none).inputText
          = true :=
  ⟨((submission_image_mode_amended cSmallText [cImgUrl] none).2 (by simp)).1,
   ((submission_image_mode_amended cSmallText [cImgUrl] none).2 (by simp)).2
     (by decide) cImgUrl (by decide)⟩

/-- C10: the input text submitted by `process_file` is the extracted text
with the image section appended (when URLs were found) and then truncated
to its first 400000 characters when longer, so the payload's `inputText`
never exceeds 400000 characters. -/
theorem process_file_truncates_input (text : List Char)
    (urls : List (List Char)) (themeId : Option String) :
    buildInputText text urls
        = (if urls.isEmpty then text else text ++ imageSection urls).take 400000
      ∧ (buildInputText text urls).length ≤ 400000
      ∧ (submissionPayload text urls themeId).inputText
          = buildInputText text urls := by
  refine ⟨?_, ?_, rfl⟩
  · unfold buildInputText
    by_cases hlen :
        (if urls.isEmpty then text else text ++ imageSection urls).length > 400000
    · rw [if_pos hlen]
    · rw [if_neg hlen, List.take_of_length_le (by omega)]
  · unfold buildInputText
    by_cases hlen :
        (if urls.isEmpty then text else text ++ imageSection urls).length > 400000
    · rw [if_pos hlen]
      simp [List.length_take]
    · rw [if_neg hlen]
      omega
